import Mathlib

/-!
Verification of the searchbetter query-rewriting library against its
specification.  The Python sources (src/searchbetter/rewriter.py and
src/search.py) are shallowly embedded below: terms are Lean `String`s,
Python byte-string operations (`str.lower`, `str.replace`, `str.split`,
the `in` substring test) are modelled on `List Char`, and effectful
steps (HTTP fetch, XML parse, the gensim model, the whoosh writer) are
made explicit as parameters or small state machines.
-/

namespace SearchBetter

/-! ### Character-list primitives

Python 2 byte-string operations used by rewriter.py, modelled on
`List Char`.  `str.lower` on a Python 2 byte string lowercases exactly
the ASCII range, which is precisely Lean's `Char.toLower`.
-/

/-- `startsWithL n h` holds when the list `n` is an initial segment of `h`.
Used to model Python's substring scanning. -/
def startsWithL : List Char → List Char → Bool
  | [], _ => true
  | _ :: _, [] => false
  | a :: as, b :: bs => a == b && startsWithL as bs

/-- `containsL n h` models Python's `n in h` substring test: scan `h`
left to right looking for an occurrence of `n`. -/
def containsL (n : List Char) : List Char → Bool
  | [] => startsWithL n []
  | c :: t => startsWithL n (c :: t) || containsL n t

/-- Reference substring test, written independently of the scanning
functions above: `n` occurs in `h` when at some position `i` the next
`n.length` characters of `h` are `n`. -/
def isSubOf (n h : List Char) : Bool :=
  (List.range (h.length + 1)).any fun i => (h.drop i).take n.length == n

/-- Fuelled worker for `str.replace(pat, '')`: a single left-to-right
non-overlapping scan deleting each occurrence of `pat` (Python does not
rescan text formed by a deletion).  Fuel is the length of the input, so
it never runs out. -/
def replaceAllGo (pat : List Char) : Nat → List Char → List Char
  | _, [] => []
  | 0, s => s
  | fuel + 1, c :: t =>
    if !pat.isEmpty && startsWithL pat (c :: t) then
      replaceAllGo pat fuel (List.drop (pat.length - 1) t)
    else
      c :: replaceAllGo pat fuel t

/-- Fuelled worker for `str.split(pat)[-1]`: the text after the last
occurrence of `pat` in the left-to-right non-overlapping scan (the whole
string when `pat` does not occur). -/
def lastSegGo (pat : List Char) : Nat → List Char → List Char
  | _, [] => []
  | 0, s => s
  | fuel + 1, c :: t =>
    if !pat.isEmpty && startsWithL pat (c :: t) then
      lastSegGo pat fuel (List.drop (pat.length - 1) t)
    else if containsL pat t then
      lastSegGo pat fuel t
    else
      c :: t

/-! ### rewriter.py -/

/-- ASCII lowercasing of a string, character by character: Python 2
`str.lower` on a byte string (rewriter.py line 57 `w.lower()`). -/
def lowerStr (s : String) : String :=
  ⟨s.toList.map Char.toLower⟩

/-- Python's `n in h` substring test on strings. -/
def containsStr (n h : String) : Bool :=
  containsL n.toList h.toList

/-- The namespace marker `'Category:'` of rewriter.py lines 40 and 57. -/
def catPat : List Char :=
  "Category:".toList

/-- `WikipediaRewriter.clean_category` (rewriter.py lines 39-40):
`x.replace('Category:','')`, deleting every occurrence of the marker in
one left-to-right pass. -/
def clean_category (x : String) : String :=
  ⟨replaceAllGo catPat x.toList.length x.toList⟩

/-- `w.split('Category:')[-1]` of rewriter.py line 57: the text after
the last occurrence of the marker. -/
def lastSplitStr (w : String) : String :=
  ⟨lastSegGo catPat w.toList.length w.toList⟩

/-- The dropword list of rewriter.py line 55, verbatim (including the
duplicated `'articles'`); line 56 appends the queried term to it. -/
def dropwords : List String :=
  ["articles", "wikipedia", "accuracy", "articles", "statements", "magic",
   "pages", "authors", "editors", "appearances", "redirects", "cs1"]

/-- `ControlRewriter.rewrite` (rewriter.py lines 29-30): return `[term]`. -/
def controlRewrite (term : String) : List String :=
  [term]

/-- The expansion list built by `WikipediaRewriter.rewrite` (rewriter.py
line 57) from the category titles the service returned: clean each title
(line 52), keep those whose lowercased form contains no entry of
`dropwords ++ [term]`, and map survivors to the lowercased text after
the last `'Category:'` marker. -/
def wikiExpansions (term : String) (titles : List String) : List String :=
  ((titles.map clean_category).filter
      (fun w => !((dropwords ++ [term]).any fun d => containsStr d (lowerStr w)))).map
    (fun w => lowerStr (lastSplitStr w))

/-- `WikipediaRewriter.rewrite` (rewriter.py lines 42-62) after a
successful fetch and parse, as a function of the category titles
extracted from the XML response: the expansions followed by the original
term (line 62). -/
def wikipediaRewrite (term : String) (titles : List String) : List String :=
  wikiExpansions term titles ++ [term]

/-- The Taxonomy filter as the spec words it, for comparison with
`wikiExpansions`: a cleaned label is discarded exactly when its
lowercased form contains (case-insensitively) a token of the fixed
dropword set, or when the label matches the queried term itself. -/
def wikiExpansionsSpec (term : String) (titles : List String) : List String :=
  ((titles.map clean_category).filter
      (fun w => !(dropwords.any fun d => isSubOf d.toList (lowerStr w).toList)
        && !(lowerStr w == lowerStr term))).map
    (fun w => lowerStr (lastSplitStr w))

/-- Transport or parse failure of the Wikipedia category lookup. -/
inductive WikiFetchError where
  | transport
  | parse
deriving DecidableEq

/-- `WikipediaRewriter.rewrite` (rewriter.py lines 42-62) with its
effects explicit: `requests.get` (line 48) may fail in transport and
`etree.fromstring` (line 49) may fail to parse; the method installs no
exception handler, so either failure propagates to the caller.
`parseTitles` stands for parsing the body and collecting the `title`
attributes of the `.//cl` elements (lines 49-52). -/
def wikipediaRewriteRun (term : String) (response : Except WikiFetchError String)
    (parseTitles : String → Except WikiFetchError (List String)) :
    Except WikiFetchError (List String) :=
  match response with
  | .error e => .error e
  | .ok body =>
    match parseTitles body with
    | .error e => .error e
    | .ok titles => .ok (wikipediaRewrite term titles)

/-- `Word2VecRewriter.rewrite` (rewriter.py lines 124-138).  The gensim
call `self.model.similar_by_word(term, topn=10)` is an external
collaborator, abstracted as `similar`: `some raw` is a normal return of
the ranked `(word, score)` list, `none` is the `KeyError` raised on an
out-of-vocabulary term, which the method catches and turns into zero
results (lines 132-135).  Line 138 appends the original term
(`term.decode("utf8")` is the same text as `term`). -/
def word2vecRewrite (similar : String → Option (List (String × ℚ)))
    (term : String) : List String :=
  (match similar term with
   | some raw => raw.map Prod.fst
   | none => []) ++ [term]

/-- The RewriteResult invariant of the spec: the term occurs exactly
once in the list, as its last element. -/
def occursOnceLast (t : String) (l : List String) : Prop :=
  l.count t = 1 ∧ l.getLast? = some t

/-! ### search.py -/

/-- Final state of a whoosh writer session. -/
inductive SessionStatus where
  | active
  | committed
  | cancelled
deriving DecidableEq

/-- Where, if anywhere, an exception is raised inside the guarded block
of a `create_index` method: while adding the `k`-th document, or during
`writer.commit()`. -/
inductive FailurePoint where
  | noFailure
  | duringAdd (k : Nat)
  | duringCommit
deriving DecidableEq

/-- Outcome of one write session: the documents durably persisted in the
index, and the final status of the writer. -/
structure SessionResult (α : Type) where
  persisted : List α
  status : SessionStatus
deriving DecidableEq

/-- `UdacitySearchEngine.create_index` (search.py lines 144-157): the
add-loop and `writer.commit()` sit in a `try` whose handler only prints
the exception — the writer is neither committed nor cancelled, so a
failing session persists nothing and is left open.  The atomicity of
whoosh `commit`/`cancel` itself (nothing is persisted before a
successful `commit`) is the storage-engine contract of the spec; whoosh
is an external collaborator. -/
def udacityCreateIndexSession {α : Type} (docs : List α) (fp : FailurePoint) :
    SessionResult α :=
  match fp with
  | .noFailure => ⟨docs, .committed⟩
  | .duringAdd _ => ⟨[], .active⟩
  | .duringCommit => ⟨[], .active⟩

/-- `HarvardXSearchEngine.create_index` (search.py lines 232-249): same
guarded add-loop and `writer.commit()`, but the handler calls
`writer.cancel()`, so a failing session persists nothing and ends
cancelled. -/
def harvardxCreateIndexSession {α : Type} (docs : List α) (fp : FailurePoint) :
    SessionResult α :=
  match fp with
  | .noFailure => ⟨docs, .committed⟩
  | .duringAdd _ => ⟨[], .cancelled⟩
  | .duringCommit => ⟨[], .cancelled⟩

/-- `EdXSearchEngine.create_index` (search.py lines 305-317): identical
commit-or-cancel structure to the HarvardX engine. -/
def edxCreateIndexSession {α : Type} (docs : List α) (fp : FailurePoint) :
    SessionResult α :=
  match fp with
  | .noFailure => ⟨docs, .committed⟩
  | .duringAdd _ => ⟨[], .cancelled⟩
  | .duringCommit => ⟨[], .cancelled⟩

/-- One row of the HarvardX/DART CSV (search.py lines 229-244). -/
structure HarvardXRow where
  course_id : String
  display_name : String
  contents : String
  category : String
deriving DecidableEq

/-- A document as passed to `writer.add_document` by
`HarvardXSearchEngine.create_index` (search.py lines 241-244). -/
structure HarvardXDoc where
  course_id : String
  display_name : String
  contents : String
deriving DecidableEq

/-- `supported_categories` of search.py line 204. -/
def supported_categories : List String :=
  ["problem", "video", "course"]

/-- The documents the HarvardX ingestion loop (search.py lines 235-244)
passes to `writer.add_document`.  The loop runs
`if row['category'] not in supported_categories: pass` — the branch body
is `pass`, a no-op — and then adds the document unconditionally, so
every row is added whatever its category. -/
def harvardxLoopDocs (rows : List HarvardXRow) : List HarvardXDoc :=
  rows.map (fun row => ⟨row.course_id, row.display_name, row.contents⟩)

/-- The ingestion filter as the spec states it: only rows whose category
is in the supported set become documents. -/
def harvardxSpecDocs (rows : List HarvardXRow) : List HarvardXDoc :=
  (rows.filter (fun row => row.category ∈ supported_categories)).map
    (fun row => ⟨row.course_id, row.display_name, row.contents⟩)

/-! ### Helper lemmas -/

theorem startsWithL_self (l : List Char) : startsWithL l l = true := by
  induction l with
  | nil => rfl
  | cons a as ih => simp [startsWithL, ih]

theorem startsWithL_iff (n : List Char) :
    ∀ m : List Char, startsWithL n m = true ↔ ∃ r, n ++ r = m := by
  induction n with
  | nil =>
    intro m
    simp [startsWithL]
  | cons a as ih =>
    intro m
    cases m with
    | nil =>
      simp [startsWithL]
    | cons b bs =>
      simp only [startsWithL, Bool.and_eq_true, beq_iff_eq, ih bs]
      constructor
      · rintro ⟨rfl, r, rfl⟩
        exact ⟨r, rfl⟩
      · rintro ⟨r, h⟩
        injection h with h1 h2
        exact ⟨h1, r, h2⟩

theorem containsL_iff (n : List Char) :
    ∀ h : List Char, containsL n h = true ↔ ∃ l r, l ++ n ++ r = h := by
  intro h
  induction h with
  | nil =>
    cases n with
    | nil => simp [containsL, startsWithL]
    | cons a as =>
      simp only [containsL, startsWithL]
      constructor
      · intro hfalse; cases hfalse
      · rintro ⟨l, r, h⟩
        have := congrArg List.length h
        simp at this
  | cons c t ih =>
    simp only [containsL, Bool.or_eq_true, startsWithL_iff, ih]
    constructor
    · rintro (⟨r, hr⟩ | ⟨l, r, hr⟩)
      · exact ⟨[], r, by simpa using hr⟩
      · exact ⟨c :: l, r, by simp [hr]⟩
    · rintro ⟨l, r, h⟩
      cases l with
      | nil =>
        exact Or.inl ⟨r, by simpa using h⟩
      | cons x xs =>
        injection h with h1 h2
        exact Or.inr ⟨xs, r, h2⟩

theorem containsL_of_suffix {n h : List Char} (hs : n <:+ h) :
    containsL n h = true := by
  obtain ⟨p, hp⟩ := hs
  exact (containsL_iff n h).mpr ⟨p, [], by simpa using hp⟩

theorem isSubOf_iff (n h : List Char) :
    isSubOf n h = true ↔ ∃ l r, l ++ n ++ r = h := by
  unfold isSubOf
  rw [List.any_eq_true]
  constructor
  · rintro ⟨i, -, hi⟩
    rw [beq_iff_eq] at hi
    refine ⟨h.take i, (h.drop i).drop n.length, ?_⟩
    rw [List.append_assoc]
    have h2 : n ++ (h.drop i).drop n.length = h.drop i := by
      conv_rhs => rw [← List.take_append_drop n.length (h.drop i)]
      rw [hi]
    rw [h2, List.take_append_drop]
  · rintro ⟨l, r, rfl⟩
    refine ⟨l.length, ?_, ?_⟩
    · rw [List.mem_range]
      simp
      omega
    · rw [beq_iff_eq, List.append_assoc, List.drop_left, List.take_left]

theorem containsL_eq_isSubOf (n h : List Char) : containsL n h = isSubOf n h := by
  cases hb : isSubOf n h
  · cases hc : containsL n h
    · rfl
    · rw [(isSubOf_iff n h).mpr ((containsL_iff n h).mp hc)] at hb
      cases hb
  · exact (containsL_iff n h).mpr ((isSubOf_iff n h).mp hb)

theorem lastSegGo_suffix (pat : List Char) :
    ∀ (fuel : Nat) (l : List Char), lastSegGo pat fuel l <:+ l := by
  intro fuel
  induction fuel with
  | zero =>
    intro l
    cases l with
    | nil => simp [lastSegGo]
    | cons c t => simp [lastSegGo]
  | succ m ih =>
    intro l
    cases l with
    | nil => simp [lastSegGo]
    | cons c t =>
      rw [lastSegGo]
      split
      · exact ((ih _).trans (List.drop_suffix _ _)).trans (List.suffix_cons c t)
      · split
        · exact (ih t).trans (List.suffix_cons c t)
        · exact List.suffix_refl _

theorem charOfNat_toNat (n : Nat) (hv : n.isValidChar) :
    (Char.ofNat n).toNat = n := by
  rw [Char.ofNat, dif_pos hv]
  rfl

theorem toLower_toLower (c : Char) :
    (Char.toLower c).toLower = Char.toLower c := by
  unfold Char.toLower
  by_cases h : c.toNat ≥ 65 ∧ c.toNat ≤ 90
  · rw [if_pos h]
    have hv : (c.toNat + 32).isValidChar := Or.inl (by omega)
    have heq : (Char.ofNat (c.toNat + 32)).toNat = c.toNat + 32 :=
      charOfNat_toNat _ hv
    rw [if_neg (by omega)]
  · rw [if_neg h, if_neg h]

theorem lowerStr_idem (s : String) : lowerStr (lowerStr s) = lowerStr s := by
  apply String.ext
  show (s.toList.map Char.toLower).map Char.toLower = s.toList.map Char.toLower
  rw [List.map_map]
  exact List.map_congr_left fun a _ => toLower_toLower a

theorem term_not_mem_wikiExpansions (term : String) (titles : List String) :
    term ∉ wikiExpansions term titles := by
  intro hmem
  obtain ⟨w, hw, heq⟩ := List.mem_map.mp hmem
  obtain ⟨-, hfilter⟩ := List.mem_filter.mp hw
  rw [Bool.not_eq_true'] at hfilter
  have hterm : containsStr term (lowerStr w) ≠ true :=
    List.any_eq_false.mp hfilter term (by simp)
  have hsuf : (lowerStr (lastSplitStr w)).toList <:+ (lowerStr w).toList := by
    obtain ⟨p, hp⟩ := lastSegGo_suffix catPat w.toList.length w.toList
    refine ⟨p.map Char.toLower, ?_⟩
    show p.map Char.toLower ++ (lastSplitStr w).toList.map Char.toLower =
      w.toList.map Char.toLower
    rw [← List.map_append]
    exact congrArg (List.map Char.toLower) hp
  rw [heq] at hsuf
  exact hterm (containsL_of_suffix hsuf)

/-! ### Claims -/

/-- C1: for every rewrite strategy (Control, Taxonomy/Wikipedia,
Embedding/Word2Vec) and every input term `t`, the returned list contains
`t` exactly once, as its last element.  For the Word2Vec strategy the
hypothesis records gensim's contract that `similar_by_word` never lists
the queried word among its neighbors. -/
theorem rewrite_keeps_term_once_last (t : String) (titles : List String)
    (similar : String → Option (List (String × ℚ)))
    (hm : ∀ raw, similar t = some raw → ∀ p ∈ raw, p.1 ≠ t) :
    occursOnceLast t (controlRewrite t) ∧
    occursOnceLast t (wikipediaRewrite t titles) ∧
    occursOnceLast t (word2vecRewrite similar t) := by
  refine ⟨⟨by simp [controlRewrite], by simp [controlRewrite]⟩, ⟨?_, ?_⟩, ⟨?_, ?_⟩⟩
  · show (wikiExpansions t titles ++ [t]).count t = 1
    rw [List.count_append,
      List.count_eq_zero.mpr (term_not_mem_wikiExpansions t titles)]
    simp
  · exact List.getLast?_concat _
  · show ((match similar t with
      | some raw => raw.map Prod.fst
      | none => []) ++ [t]).count t = 1
    cases hsim : similar t with
    | none => simp
    | some raw =>
      rw [List.count_append]
      have hnot : t ∉ raw.map Prod.fst := by
        intro hmem
        obtain ⟨p, hp, hp1⟩ := List.mem_map.mp hmem
        exact hm raw hsim p hp hp1
      rw [List.count_eq_zero.mpr hnot]
      simp
  · exact List.getLast?_concat _

/-- Witness for C1 at a concrete term, title list and model. -/
theorem rewrite_keeps_term_once_last_witness :
    occursOnceLast "physics" (controlRewrite "physics") ∧
    occursOnceLast "physics" (wikipediaRewrite "physics" ["Category:Mechanics"]) ∧
    occursOnceLast "physics" (word2vecRewrite (fun _ => none) "physics") :=
  rewrite_keeps_term_once_last "physics" ["Category:Mechanics"] (fun _ => none)
    (fun _ h => by cases h)

/-- C2 counterexample: the Wikipedia rewriter installs no exception
handler, so a transport failure of the category fetch propagates as an
error instead of degrading to a list containing the term. -/
theorem wiki_transport_failure_propagates :
    wikipediaRewriteRun "physics" (Except.error WikiFetchError.transport)
      (fun _ => Except.ok []) = Except.error WikiFetchError.transport :=
  rfl

/-- C2 amended: the Control rewriter is total, the Word2Vec rewriter
catches the out-of-vocabulary `KeyError` and always returns a list
containing the term, and the Wikipedia rewriter returns a list
containing the term when fetch and parse succeed — but propagates
transport or parse failures to the caller. -/
theorem rewrite_failure_behavior (t body : String) (titles : List String)
    (similar : String → Option (List (String × ℚ)))
    (parseTitles : String → Except WikiFetchError (List String))
    (e : WikiFetchError) (hp : parseTitles body = Except.ok titles) :
    t ∈ controlRewrite t ∧
    t ∈ word2vecRewrite similar t ∧
    wikipediaRewriteRun t (Except.ok body) parseTitles =
      Except.ok (wikipediaRewrite t titles) ∧
    t ∈ wikipediaRewrite t titles ∧
    wikipediaRewriteRun t (Except.error e) parseTitles = Except.error e := by
  refine ⟨by simp [controlRewrite], ?_, by simp [wikipediaRewriteRun, hp],
    by simp [wikipediaRewrite], rfl⟩
  show t ∈ (match similar t with
    | some raw => raw.map Prod.fst
    | none => []) ++ [t]
  cases similar t <;> simp

/-- Witness for C2's amended theorem at concrete inputs. -/
theorem rewrite_failure_behavior_witness :
    "physics" ∈ controlRewrite "physics" ∧
    "physics" ∈ word2vecRewrite (fun _ => none) "physics" ∧
    wikipediaRewriteRun "physics" (Except.ok "<api/>") (fun _ => Except.ok []) =
      Except.ok (wikipediaRewrite "physics" []) ∧
    "physics" ∈ wikipediaRewrite "physics" [] ∧
    wikipediaRewriteRun "physics" (Except.error WikiFetchError.parse)
      (fun _ => Except.ok []) = Except.error WikiFetchError.parse :=
  rewrite_failure_behavior "physics" "<api/>" [] (fun _ => none)
    (fun _ => Except.ok []) WikiFetchError.parse rfl

/-- C3 counterexample: on term `"Physics"` with service categories
`"Category:Physics stubs"` and `"Category:Mechanics"`, the rewriter does
not return `["mechanics", "physics"]`. -/
theorem wiki_physics_example_ne_spec :
    wikipediaRewrite "Physics" ["Category:Physics stubs", "Category:Mechanics"] ≠
      ["mechanics", "physics"] := by
  decide

/-- C3 amended: the actual result is
`["physics stubs", "mechanics", "Physics"]` — the stubs label survives
(`"stubs"` is no dropword, and the appended dropword `"Physics"` is
checked case-sensitively against the lowercased label, so it never
matches), and the original term is appended verbatim, not lowercased. -/
theorem wiki_physics_example_actual :
    wikipediaRewrite "Physics" ["Category:Physics stubs", "Category:Mechanics"] =
      ["physics stubs", "mechanics", "Physics"] := by
  decide

/-- C4 counterexample: the filter is not "drop iff a dropword occurs or
the label matches the term".  For term `"mech"` and label
`"Category:Mechanics"`, no dropword occurs in `"mechanics"` and
`"mechanics"` does not match `"mech"`, yet the code discards the label
because the filter tests substring containment of the term, not
equality. -/
theorem wiki_filter_ne_spec_filter :
    wikiExpansions "mech" ["Category:Mechanics"] = [] ∧
    wikiExpansionsSpec "mech" ["Category:Mechanics"] = ["mechanics"] := by
  decide

/-- C4 amended: a cleaned category label is discarded exactly when its
lowercased form contains, as a contiguous substring, a token of the
fixed dropword set or the original input term verbatim (the fixed
dropwords are all lowercase, so for them containment is effectively
case-insensitive; the term is compared case-sensitively, by containment
rather than equality).  Survivors keep the order the service returned
and are mapped to the lowercased text after the last namespace
marker. -/
theorem wiki_filter_characterization (term : String) (titles : List String) :
    wikiExpansions term titles =
      ((titles.map clean_category).filter
          (fun w => (dropwords ++ [term]).all
            fun d => !isSubOf d.toList (lowerStr w).toList)).map
        (fun w => lowerStr (lastSplitStr w)) := by
  unfold wikiExpansions
  congr 1
  apply List.filter_congr
  intro w _
  simp only [containsStr, containsL_eq_isSubOf]
  induction dropwords ++ [term] with
  | nil => rfl
  | cons d ds ih =>
    simp only [List.any_cons, List.all_cons, Bool.not_or, ih]

/-- C5: on an out-of-vocabulary term (the model lookup raises
`KeyError`, here `none`), `Word2VecRewriter.rewrite` does not raise: the
neighbor list degrades to empty and the result is exactly the
single-element list holding the original term. -/
theorem word2vec_oov_degrades (similar : String → Option (List (String × ℚ)))
    (t : String) (h : similar t = none) :
    word2vecRewrite similar t = [t] := by
  simp [word2vecRewrite, h]

/-- Witness for C5 with a model that knows no term. -/
theorem word2vec_oov_degrades_witness :
    word2vecRewrite (fun _ => none) "quux" = ["quux"] :=
  word2vec_oov_degrades (fun _ => none) "quux" rfl

/-- C6: on an in-vocabulary term, `Word2VecRewriter.rewrite` returns
exactly the neighbor words of the model's ranked `(word, score)` list,
in the model's order, followed by the original term; given gensim's
contract that `topn=10` bounds the list, at most 10 neighbors are
returned. -/
theorem word2vec_in_vocab_shape (similar : String → Option (List (String × ℚ)))
    (t : String) (raw : List (String × ℚ)) (hv : similar t = some raw)
    (hlen : raw.length ≤ 10) :
    word2vecRewrite similar t = raw.map Prod.fst ++ [t] ∧
    (raw.map Prod.fst).length ≤ 10 ∧
    (word2vecRewrite similar t).getLast? = some t := by
  refine ⟨by simp [word2vecRewrite, hv], by simpa using hlen,
    List.getLast?_concat _⟩

/-- Witness for C6 with a one-neighbor model. -/
theorem word2vec_in_vocab_shape_witness :
    word2vecRewrite (fun _ => some [("ai", (9 : ℚ) / 10)]) "ml" =
      [("ai", (9 : ℚ) / 10)].map Prod.fst ++ ["ml"] ∧
    ([("ai", (9 : ℚ) / 10)].map Prod.fst).length ≤ 10 ∧
    (word2vecRewrite (fun _ => some [("ai", (9 : ℚ) / 10)]) "ml").getLast? =
      some "ml" :=
  word2vec_in_vocab_shape (fun _ => some [("ai", (9 : ℚ) / 10)]) "ml"
    [("ai", (9 : ℚ) / 10)] rfl (by simp)

/-- C7 counterexample: a Udacity indexing session that fails during
persistence does not transition to aborted — the handler only prints the
exception and never calls `writer.cancel()`, so the writer is left
open. -/
theorem udacity_failed_session_not_aborted :
    (udacityCreateIndexSession ["d"] FailurePoint.duringCommit).status ≠
      SessionStatus.cancelled := by
  decide

/-- C7 amended: any failing write session persists nothing — the index
keeps its pre-session committed set — and the HarvardX and EdX sessions
transition to cancelled via `writer.cancel()`, while the failed Udacity
session is left open (neither committed nor cancelled). -/
theorem failed_session_persists_nothing (docs : List String)
    (fp : FailurePoint) (h : fp ≠ FailurePoint.noFailure) :
    (udacityCreateIndexSession docs fp).persisted = [] ∧
    (udacityCreateIndexSession docs fp).status = SessionStatus.active ∧
    (harvardxCreateIndexSession docs fp).persisted = [] ∧
    (harvardxCreateIndexSession docs fp).status = SessionStatus.cancelled ∧
    (edxCreateIndexSession docs fp).persisted = [] ∧
    (edxCreateIndexSession docs fp).status = SessionStatus.cancelled := by
  cases fp with
  | noFailure => exact absurd rfl h
  | duringAdd k => exact ⟨rfl, rfl, rfl, rfl, rfl, rfl⟩
  | duringCommit => exact ⟨rfl, rfl, rfl, rfl, rfl, rfl⟩

/-- Witness for C7's amended theorem: a commit-time failure. -/
theorem failed_session_persists_nothing_witness :
    (udacityCreateIndexSession ["d"] FailurePoint.duringCommit).persisted = [] ∧
    (udacityCreateIndexSession ["d"] FailurePoint.duringCommit).status =
      SessionStatus.active ∧
    (harvardxCreateIndexSession ["d"] FailurePoint.duringCommit).persisted = [] ∧
    (harvardxCreateIndexSession ["d"] FailurePoint.duringCommit).status =
      SessionStatus.cancelled ∧
    (edxCreateIndexSession ["d"] FailurePoint.duringCommit).persisted = [] ∧
    (edxCreateIndexSession ["d"] FailurePoint.duringCommit).status =
      SessionStatus.cancelled :=
  failed_session_persists_nothing ["d"] FailurePoint.duringCommit (by decide)

/-- C8: the Control rewriter returns exactly the single-element list
holding its input term; it is a pure function of the term. -/
theorem control_rewrite_identity (t : String) : controlRewrite t = [t] :=
  rfl

/-- C9: the HarvardX ingestion loop indexes a row whose category
(`"html"`) is outside the supported set, because the category check's
body is `pass`; the spec's filter would have excluded it. -/
theorem harvardx_unsupported_category_indexed :
    harvardxLoopDocs [⟨"c1", "unit 1", "body", "html"⟩] =
      [⟨"c1", "unit 1", "body"⟩] ∧
    "html" ∉ supported_categories ∧
    harvardxSpecDocs [⟨"c1", "unit 1", "body", "html"⟩] = [] := by
  refine ⟨rfl, by decide, rfl⟩

/-- C10: the Wikipedia rewriter's last element is the caller's term
verbatim, while every expansion preceding it is lowercased; hence for a
term that lowercasing would change (one with uppercase ASCII letters)
no expansion can equal the appended original. -/
theorem wiki_expansions_lowercased_term_verbatim (term : String)
    (titles : List String) :
    (wikipediaRewrite term titles).getLast? = some term ∧
    ∀ e ∈ wikiExpansions term titles,
      lowerStr e = e ∧ (lowerStr term ≠ term → e ≠ term) := by
  refine ⟨List.getLast?_concat _, ?_⟩
  intro e he
  obtain ⟨w, hw, heq⟩ := List.mem_map.mp he
  have hlow : lowerStr e = e := by
    rw [← heq, lowerStr_idem]
  refine ⟨hlow, fun hterm hcontra => hterm ?_⟩
  rw [← hcontra]
  exact hlow

end SearchBetter
